import Mathlib

/-!
Verification of the WebGPU Game-of-Life simulation (`src/gameoflife.js`).

The development shallowly embeds the parts of the program the claims are
about:

* the WGSL compute shader (`cellIndex`, `cellActive`, `computeMain`), with
  32-bit unsigned arithmetic modelled explicitly as `% 2^32` on `Nat`;
* the double-buffer / bind-group machinery (`bindGroups`, `updateGrid`,
  the `step` counter);
* the host-side initialization of the two cell-state storage buffers.

Grid dimensions `w`, `h` stand for `u32(grid.x)` and `u32(grid.y)` (the
program runs with `GRID_SIZE = 32` for both).  Cell-state buffers are
`List Nat` of 32-bit values, indexed row-major exactly as the storage
buffers are.
-/

/-- `2^32`, the modulus of WGSL `u32` arithmetic. -/
def U32 : Nat := 4294967296

/-- Reduce a value into `u32` range, as every WGSL `u32` operation does. -/
def wrap (n : Nat) : Nat := n % U32

/-- WGSL `u32` subtraction of one: `x - 1` computed modulo `2^32`
(underflows to `2^32 - 1` when `x = 0`, as in `cell.x-1` in the shader). -/
def u32sub1 (x : Nat) : Nat := wrap (x + (U32 - 1))

/-- The shader's `cellIndex(cell) = (cell.y % u32(grid.y)) * u32(grid.x) +
(cell.x % u32(grid.x))`, every operation in `u32` arithmetic. -/
def cellIndex (w h x y : Nat) : Nat :=
  wrap (wrap ((y % h) * w) + x % w)

/-- The shader's `cellActive(x, y) = cellStateIn[cellIndex(vec2(x, y))]`.
A read of the input storage buffer; `getD` with default `0` (all indices
actually used are in range, see the safety theorem). -/
def cellActive (w h : Nat) (sIn : List Nat) (x y : Nat) : Nat :=
  sIn.getD (cellIndex w h x y) 0

/-- The shader's `activeNeighbors` sum in `computeMain`: the eight
`cellActive` calls in source order, each coordinate offset and each
addition performed in `u32` arithmetic. -/
def activeNeighbors (w h : Nat) (s : List Nat) (x y : Nat) : Nat :=
  wrap (wrap (wrap (wrap (wrap (wrap (wrap (
    cellActive w h s (wrap (x + 1)) (wrap (y + 1)) +
    cellActive w h s (wrap (x + 1)) y) +
    cellActive w h s (wrap (x + 1)) (u32sub1 y)) +
    cellActive w h s x (u32sub1 y)) +
    cellActive w h s (u32sub1 x) (u32sub1 y)) +
    cellActive w h s (u32sub1 x) y) +
    cellActive w h s (u32sub1 x) (wrap (y + 1))) +
    cellActive w h s x (wrap (y + 1)))

/-- The value `computeMain` writes to `cellStateOut[cellIndex(cell.xy)]`
for the invocation with global id `(x, y)`: the `switch` on
`activeNeighbors` (case 2 ↦ copy `cellStateIn[i]`, case 3 ↦ 1,
default ↦ 0). -/
def nextCell (w h : Nat) (s : List Nat) (x y : Nat) : Nat :=
  if activeNeighbors w h s x y = 2 then s.getD (cellIndex w h x y) 0
  else if activeNeighbors w h s x y = 3 then 1
  else 0

/-- One full compute step: the output buffer after every invocation has
written its cell.  Cell `i` (row-major, `i = y*w + x`) holds
`nextCell` of the invocation that owns it.  `runSchedule_eq_stepGrid`
below proves this is what any complete execution of the dispatch
produces, in any invocation order. -/
def stepGrid (w h : Nat) (s : List Nat) : List Nat :=
  (List.range (w * h)).map (fun i => nextCell w h s (i % w) (i / w))

/-- The eight neighbor indices `computeMain` reads, in source order:
`(x+1,y+1), (x+1,y), (x+1,y-1), (x,y-1), (x-1,y-1), (x-1,y), (x-1,y+1),
(x,y+1)`, coordinates offset in `u32` arithmetic and then reduced by
`cellIndex`. -/
def codeNeighborIndices (w h x y : Nat) : List Nat :=
  [cellIndex w h (wrap (x + 1)) (wrap (y + 1)),
   cellIndex w h (wrap (x + 1)) y,
   cellIndex w h (wrap (x + 1)) (u32sub1 y),
   cellIndex w h x (u32sub1 y),
   cellIndex w h (u32sub1 x) (u32sub1 y),
   cellIndex w h (u32sub1 x) y,
   cellIndex w h (u32sub1 x) (wrap (y + 1)),
   cellIndex w h x (wrap (y + 1))]

/-- Row-major index of the cell whose coordinates are `x` and `y` reduced
modulo the grid dimensions (ideal toroidal indexing, no `u32` wrap). -/
def torIndex (w h x y : Nat) : Nat := (y % h) * w + x % w

/-- The eight toroidal Moore-neighbor indices of cell `(x, y)` as the
spec describes them — each neighbor coordinate component reduced modulo
the grid width/height — listed in the same order as the code's reads
(`x - 1` toroidally is `(x + w - 1) % w`). -/
def torNeighborIndices (w h x y : Nat) : List Nat :=
  [torIndex w h (x + 1) (y + 1),
   torIndex w h (x + 1) y,
   torIndex w h (x + 1) (y + h - 1),
   torIndex w h x (y + h - 1),
   torIndex w h (x + w - 1) (y + h - 1),
   torIndex w h (x + w - 1) y,
   torIndex w h (x + w - 1) (y + 1),
   torIndex w h x (y + 1)]

/-- The true 8-neighbor toroidal Moore count of cell `(x, y)` in buffer
`s`: the sum of the eight toroidal Moore-neighbor values. -/
def mooreCount (w h : Nat) (s : List Nat) (x y : Nat) : Nat :=
  ((torNeighborIndices w h x y).map (fun j => s.getD j 0)).sum

/-! ### Bind groups and the step counter -/

/-- The two cell-state storage buffers, `Cell State A` and `Cell State B`. -/
inductive Buf where
  | A : Buf
  | B : Buf
deriving DecidableEq, Repr

/-- A bind group's two cell-state entries: `input` is the buffer bound at
`@binding(1)` (read-only `cellStateIn`), `output` the buffer bound at
`@binding(2)` (read-write `cellStateOut`). -/
structure BindGroup where
  input : Buf
  output : Buf
deriving DecidableEq, Repr

/-- The `bindGroups` array: group 0 reads A and writes B, group 1 reads B
and writes A. -/
def bindGroups : List BindGroup :=
  [⟨Buf.A, Buf.B⟩, ⟨Buf.B, Buf.A⟩]

/-- `bindGroups[n % 2]`, the selection both passes of `updateGrid` use. -/
def bindGroupAt (n : Nat) : BindGroup :=
  bindGroups.getD (n % 2) ⟨Buf.A, Buf.B⟩

/-- What one call of `updateGrid` does with the step counter and the bind
groups: the compute pass binds `bindGroups[step % 2]`, `step` is
incremented, the render pass binds `bindGroups[step % 2]` with the new
`step`.  Returns (compute bind group, render bind group, new step). -/
def updateGrid (step : Nat) : BindGroup × BindGroup × Nat :=
  (bindGroupAt step, bindGroupAt (step + 1), step + 1)

/-- The value of `step` after `n` calls of `updateGrid`, starting from the
initial `let step = 0`. -/
def stepAfter : Nat → Nat
  | 0 => 0
  | n + 1 => (updateGrid (stepAfter n)).2.2

/-! ### Host-side initialization of the cell-state buffers -/

/-- The host's random fill loop: `cellStateArray[i] = Math.random() > 0.6
? 1 : 0`, with `r i` the `i`-th random sample (a real-valued source,
modelled in `ℚ`) and the literal threshold `0.6 = 3/5`. -/
def initCellState (r : Nat → ℚ) (n : Nat) : List Nat :=
  (List.range n).map (fun i => if (3 : ℚ) / 5 < r i then 1 else 0)

/-- Buffer B's contents: created by `device.createBuffer` (zero
initialized) and never written by the host. -/
def cellStateB (n : Nat) : List Nat := List.replicate n 0

/-- Host-side commands touching the cell-state buffers, abstracted from
`run()` and `updateGrid()`: a `queue.writeBuffer` into a cell-state
buffer, a compute dispatch with a bind-group parity, or a render pass
with a bind-group parity. -/
inductive HostCmd where
  | writeCellBuffer : Buf → HostCmd
  | dispatchCompute : Nat → HostCmd
  | render : Nat → HostCmd
deriving DecidableEq, Repr

/-- The cell-state buffer commands `run()` issues before the first tick:
exactly one `writeBuffer(cellStateStorage[0], 0, cellStateArray)`. -/
def initCmds : List HostCmd := [HostCmd.writeCellBuffer Buf.A]

/-- The cell-state buffer commands one `updateGrid()` call issues when the
step counter holds `step`: a compute dispatch with `bindGroups[step % 2]`
and a render pass with `bindGroups[(step+1) % 2]`; no `writeBuffer`. -/
def tickCmds (step : Nat) : List HostCmd :=
  [HostCmd.dispatchCompute (step % 2), HostCmd.render ((step + 1) % 2)]

/-- All cell-state buffer commands the host issues across initialization
and the first `n` ticks. -/
def hostTrace (n : Nat) : List HostCmd :=
  initCmds ++ (List.range n).flatMap (fun k => tickCmds (stepAfter k))

/-! ### Invocation schedules -/

/-- One invocation's write: `cellStateOut[cellIndex(cell.xy)] =` the
`switch` result.  `out` is the bound output buffer. -/
def writeCell (w h : Nat) (sIn out : List Nat) (p : Nat × Nat) : List Nat :=
  out.set (cellIndex w h p.1 p.2) (nextCell w h sIn p.1 p.2)

/-- Execute a compute dispatch whose invocations run in the order given
by `sched`, each reading the input buffer `sIn` and writing the output
buffer. -/
def runSchedule (w h : Nat) (sIn out : List Nat) (sched : List (Nat × Nat)) : List Nat :=
  sched.foldl (writeCell w h sIn) out

/-- A schedule is complete when every grid cell is owned by at least one
of its invocations (the invocation id reduced modulo the grid size). -/
def validSchedule (w h : Nat) (sched : List (Nat × Nat)) : Prop :=
  ∀ x < w, ∀ y < h, ∃ p ∈ sched, p.1 % w = x ∧ p.2 % h = y

instance instDecidableValidSchedule (w h : Nat) (sched : List (Nat × Nat)) :
    Decidable (validSchedule w h sched) :=
  inferInstanceAs (Decidable (∀ x < w, ∀ y < h, ∃ p ∈ sched, p.1 % w = x ∧ p.2 % h = y))

/-- The full set of invocation ids of one dispatch:
`dispatchWorkgroups(ceil(w/wg), ceil(h/wg))` with `@workgroup_size(wg,
wg)` runs every `(x, y)` with `x < wg*ceil(w/wg)` and `y < wg*ceil(h/wg)`
(row-major here; the real execution order is arbitrary, which
`runSchedule_eq_stepGrid` accounts for). -/
def dispatchGrid (w h wg : Nat) : List (Nat × Nat) :=
  (List.range (wg * ((h + wg - 1) / wg))).flatMap
    (fun y => (List.range (wg * ((w + wg - 1) / wg))).map (fun x => (x, y)))

/-- Run `n` ticks: tick `k` executes schedule `scheds k` against output
buffer `outs k` (the stale other buffer), its result becoming the next
input. -/
def runTicks (w h : Nat) (scheds : Nat → List (Nat × Nat)) (outs : Nat → List Nat) :
    Nat → List Nat → List Nat
  | 0, s => s
  | n + 1, s => runSchedule w h (runTicks w h scheds outs n s) (outs n) (scheds n)

/-! ### Arithmetic lemmas about the `u32` model -/

lemma U32_pos : 0 < U32 := by norm_num [U32]

lemma wrap_lt (n : Nat) : wrap n < U32 := Nat.mod_lt _ U32_pos

lemma wrap_eq_of_lt {n : Nat} (h : n < U32) : wrap n = n := Nat.mod_eq_of_lt h

lemma wrap_mod_of_dvd {d : Nat} (hd : d ∣ U32) (n : Nat) : wrap n % d = n % d :=
  Nat.mod_mod_of_dvd n hd

lemma torIndex_lt {w h : Nat} (hw : 0 < w) (hh : 0 < h) (x y : Nat) :
    torIndex w h x y < w * h := by
  unfold torIndex
  have h1 : y % h < h := Nat.mod_lt _ hh
  have h2 : x % w < w := Nat.mod_lt _ hw
  calc (y % h) * w + x % w < (y % h) * w + w := by omega
    _ = (y % h + 1) * w := by ring
    _ ≤ h * w := Nat.mul_le_mul_right w (by omega)
    _ = w * h := Nat.mul_comm h w

lemma cellIndex_eq_torIndex {w h : Nat} (hw : 0 < w) (hh : 0 < h)
    (hwh : w * h ≤ U32) (x y : Nat) : cellIndex w h x y = torIndex w h x y := by
  have hlt := torIndex_lt hw hh x y
  unfold torIndex at hlt
  unfold cellIndex torIndex
  have h1 : (y % h) * w < U32 := by omega
  rw [wrap_eq_of_lt h1, wrap_eq_of_lt (by omega)]

lemma cellIndex_lt {w h : Nat} (hw : 0 < w) (hh : 0 < h) (x y : Nat) :
    cellIndex w h x y < w * h := by
  rcases le_or_lt (w * h) U32 with hle | hlt
  · rw [cellIndex_eq_torIndex hw hh hle]
    exact torIndex_lt hw hh x y
  · exact lt_trans (wrap_lt _) hlt

lemma add1_mod {w : Nat} (hdw : w ∣ U32) (x : Nat) : wrap (x + 1) % w = (x + 1) % w :=
  wrap_mod_of_dvd hdw _

lemma sub1_mod {w : Nat} (hdw : w ∣ U32) (hw : 0 < w) (x : Nat) :
    u32sub1 x % w = (x + (w - 1)) % w := by
  unfold u32sub1
  rw [wrap_mod_of_dvd hdw]
  obtain ⟨m, hm⟩ := hdw
  have hU : U32 = 4294967296 := rfl
  have hm1 : m ≠ 0 := by
    rintro rfl
    simp at hm
    omega
  have h2 : w * m = w * (m - 1) + w := by
    cases m with
    | zero => omega
    | succ k => simp [Nat.mul_succ]
  have hsplit : x + (U32 - 1) = (x + (w - 1)) + w * (m - 1) := by omega
  rw [hsplit, Nat.add_mul_mod_self_left]

lemma torIndex_congr {w h a b a' b' : Nat} (ha : a % w = a' % w)
    (hb : b % h = b' % h) : torIndex w h a b = torIndex w h a' b' := by
  unfold torIndex
  rw [ha, hb]

lemma cellIndex_congr {w h : Nat} (hw : 0 < w) (hh : 0 < h) (hwh : w * h ≤ U32)
    {a b a' b' : Nat} (ha : a % w = a' % w) (hb : b % h = b' % h) :
    cellIndex w h a b = cellIndex w h a' b' := by
  rw [cellIndex_eq_torIndex hw hh hwh, cellIndex_eq_torIndex hw hh hwh]
  exact torIndex_congr ha hb

lemma nIdx_pp {w h : Nat} (hw : 0 < w) (hh : 0 < h) (hdw : w ∣ U32) (hdh : h ∣ U32)
    (hwh : w * h ≤ U32) (x y : Nat) :
    cellIndex w h (wrap (x + 1)) (wrap (y + 1)) = torIndex w h (x + 1) (y + 1) := by
  rw [cellIndex_eq_torIndex hw hh hwh]
  exact torIndex_congr (add1_mod hdw x) (add1_mod hdh y)

lemma nIdx_p0 {w h : Nat} (hw : 0 < w) (hh : 0 < h) (hdw : w ∣ U32)
    (hwh : w * h ≤ U32) (x y : Nat) :
    cellIndex w h (wrap (x + 1)) y = torIndex w h (x + 1) y := by
  rw [cellIndex_eq_torIndex hw hh hwh]
  exact torIndex_congr (add1_mod hdw x) rfl

lemma nIdx_pm {w h : Nat} (hw : 0 < w) (hh : 0 < h) (hdw : w ∣ U32) (hdh : h ∣ U32)
    (hwh : w * h ≤ U32) (x y : Nat) :
    cellIndex w h (wrap (x + 1)) (u32sub1 y) = torIndex w h (x + 1) (y + h - 1) := by
  rw [cellIndex_eq_torIndex hw hh hwh]
  have hy : y + (h - 1) = y + h - 1 := by omega
  exact torIndex_congr (add1_mod hdw x) (by rw [sub1_mod hdh hh y, hy])

lemma nIdx_0m {w h : Nat} (hw : 0 < w) (hh : 0 < h) (hdh : h ∣ U32)
    (hwh : w * h ≤ U32) (x y : Nat) :
    cellIndex w h x (u32sub1 y) = torIndex w h x (y + h - 1) := by
  rw [cellIndex_eq_torIndex hw hh hwh]
  have hy : y + (h - 1) = y + h - 1 := by omega
  exact torIndex_congr rfl (by rw [sub1_mod hdh hh y, hy])

lemma nIdx_mm {w h : Nat} (hw : 0 < w) (hh : 0 < h) (hdw : w ∣ U32) (hdh : h ∣ U32)
    (hwh : w * h ≤ U32) (x y : Nat) :
    cellIndex w h (u32sub1 x) (u32sub1 y) = torIndex w h (x + w - 1) (y + h - 1) := by
  rw [cellIndex_eq_torIndex hw hh hwh]
  have hx : x + (w - 1) = x + w - 1 := by omega
  have hy : y + (h - 1) = y + h - 1 := by omega
  exact torIndex_congr (by rw [sub1_mod hdw hw x, hx]) (by rw [sub1_mod hdh hh y, hy])

lemma nIdx_m0 {w h : Nat} (hw : 0 < w) (hh : 0 < h) (hdw : w ∣ U32)
    (hwh : w * h ≤ U32) (x y : Nat) :
    cellIndex w h (u32sub1 x) y = torIndex w h (x + w - 1) y := by
  rw [cellIndex_eq_torIndex hw hh hwh]
  have hx : x + (w - 1) = x + w - 1 := by omega
  exact torIndex_congr (by rw [sub1_mod hdw hw x, hx]) rfl

lemma nIdx_mp {w h : Nat} (hw : 0 < w) (hh : 0 < h) (hdw : w ∣ U32) (hdh : h ∣ U32)
    (hwh : w * h ≤ U32) (x y : Nat) :
    cellIndex w h (u32sub1 x) (wrap (y + 1)) = torIndex w h (x + w - 1) (y + 1) := by
  rw [cellIndex_eq_torIndex hw hh hwh]
  have hx : x + (w - 1) = x + w - 1 := by omega
  exact torIndex_congr (by rw [sub1_mod hdw hw x, hx]) (add1_mod hdh y)

lemma nIdx_0p {w h : Nat} (hw : 0 < w) (hh : 0 < h) (hdh : h ∣ U32)
    (hwh : w * h ≤ U32) (x y : Nat) :
    cellIndex w h x (wrap (y + 1)) = torIndex w h x (y + 1) := by
  rw [cellIndex_eq_torIndex hw hh hwh]
  exact torIndex_congr rfl (add1_mod hdh y)

/-! ### Normal form of the shader's neighbor sum -/

/-- Proof-internal normal form of `activeNeighbors`: the same `u32` sum
chain, with every read index rewritten to its toroidal form. -/
def torNeighborWrapSum (w h : Nat) (s : List Nat) (x y : Nat) : Nat :=
  wrap (wrap (wrap (wrap (wrap (wrap (wrap (
    s.getD (torIndex w h (x + 1) (y + 1)) 0 +
    s.getD (torIndex w h (x + 1) y) 0) +
    s.getD (torIndex w h (x + 1) (y + h - 1)) 0) +
    s.getD (torIndex w h x (y + h - 1)) 0) +
    s.getD (torIndex w h (x + w - 1) (y + h - 1)) 0) +
    s.getD (torIndex w h (x + w - 1) y) 0) +
    s.getD (torIndex w h (x + w - 1) (y + 1)) 0) +
    s.getD (torIndex w h x (y + 1)) 0)

lemma activeNeighbors_norm {w h : Nat} (hw : 0 < w) (hh : 0 < h) (hdw : w ∣ U32)
    (hdh : h ∣ U32) (hwh : w * h ≤ U32) (s : List Nat) (x y : Nat) :
    activeNeighbors w h s x y = torNeighborWrapSum w h s x y := by
  unfold activeNeighbors torNeighborWrapSum cellActive
  rw [nIdx_pp hw hh hdw hdh hwh x y, nIdx_p0 hw hh hdw hwh x y,
    nIdx_pm hw hh hdw hdh hwh x y, nIdx_0m hw hh hdh hwh x y,
    nIdx_mm hw hh hdw hdh hwh x y, nIdx_m0 hw hh hdw hwh x y,
    nIdx_mp hw hh hdw hdh hwh x y, nIdx_0p hw hh hdh hwh x y]

lemma getD_le_one {s : List Nat} (hs : ∀ v ∈ s, v ≤ 1) (i : Nat) : s.getD i 0 ≤ 1 := by
  rcases lt_or_le i s.length with hlt | hle
  · rw [List.getD_eq_getElem s 0 hlt]
    exact hs _ (List.getElem_mem hlt)
  · simp [List.getD, List.getElem?_eq_none hle]

/-- For a 0/1 input buffer the `u32` sum chain never overflows, so the
shader's neighbor sum is the true toroidal Moore count. -/
lemma activeNeighbors_eq_mooreCount {w h : Nat} (hw : 0 < w) (hh : 0 < h)
    (hdw : w ∣ U32) (hdh : h ∣ U32) (hwh : w * h ≤ U32) {s : List Nat}
    (hs : ∀ v ∈ s, v ≤ 1) (x y : Nat) :
    activeNeighbors w h s x y = mooreCount w h s x y := by
  rw [activeNeighbors_norm hw hh hdw hdh hwh s x y]
  unfold torNeighborWrapSum mooreCount torNeighborIndices
  simp only [List.map_cons, List.map_nil, List.sum_cons, List.sum_nil]
  have hU : U32 = 4294967296 := rfl
  set a1 := s.getD (torIndex w h (x + 1) (y + 1)) 0 with ha1
  set a2 := s.getD (torIndex w h (x + 1) y) 0 with ha2
  set a3 := s.getD (torIndex w h (x + 1) (y + h - 1)) 0 with ha3
  set a4 := s.getD (torIndex w h x (y + h - 1)) 0 with ha4
  set a5 := s.getD (torIndex w h (x + w - 1) (y + h - 1)) 0 with ha5
  set a6 := s.getD (torIndex w h (x + w - 1) y) 0 with ha6
  set a7 := s.getD (torIndex w h (x + w - 1) (y + 1)) 0 with ha7
  set a8 := s.getD (torIndex w h x (y + 1)) 0 with ha8
  have b1 : a1 ≤ 1 := ha1 ▸ getD_le_one hs _
  have b2 : a2 ≤ 1 := ha2 ▸ getD_le_one hs _
  have b3 : a3 ≤ 1 := ha3 ▸ getD_le_one hs _
  have b4 : a4 ≤ 1 := ha4 ▸ getD_le_one hs _
  have b5 : a5 ≤ 1 := ha5 ▸ getD_le_one hs _
  have b6 : a6 ≤ 1 := ha6 ▸ getD_le_one hs _
  have b7 : a7 ≤ 1 := ha7 ▸ getD_le_one hs _
  have b8 : a8 ≤ 1 := ha8 ▸ getD_le_one hs _
  have e1 : wrap (a1 + a2) = a1 + a2 := wrap_eq_of_lt (by omega)
  rw [e1]
  have e2 : wrap (a1 + a2 + a3) = a1 + a2 + a3 := wrap_eq_of_lt (by omega)
  rw [e2]
  have e3 : wrap (a1 + a2 + a3 + a4) = a1 + a2 + a3 + a4 := wrap_eq_of_lt (by omega)
  rw [e3]
  have e4 : wrap (a1 + a2 + a3 + a4 + a5) = a1 + a2 + a3 + a4 + a5 :=
    wrap_eq_of_lt (by omega)
  rw [e4]
  have e5 : wrap (a1 + a2 + a3 + a4 + a5 + a6) = a1 + a2 + a3 + a4 + a5 + a6 :=
    wrap_eq_of_lt (by omega)
  rw [e5]
  have e6 : wrap (a1 + a2 + a3 + a4 + a5 + a6 + a7) = a1 + a2 + a3 + a4 + a5 + a6 + a7 :=
    wrap_eq_of_lt (by omega)
  rw [e6]
  have e7 : wrap (a1 + a2 + a3 + a4 + a5 + a6 + a7 + a8) =
      a1 + a2 + a3 + a4 + a5 + a6 + a7 + a8 := wrap_eq_of_lt (by omega)
  rw [e7]
  omega

/-- `torNeighborWrapSum` only depends on the cell coordinates modulo the
grid dimensions. -/
lemma torNeighborWrapSum_congr {w h : Nat} {x y x' y' : Nat} (s : List Nat)
    (ha : x % w = x' % w) (hb : y % h = y' % h) :
    torNeighborWrapSum w h s x y = torNeighborWrapSum w h s x' y' := by
  have cx1 : (x + 1) % w = (x' + 1) % w := by
    rw [Nat.add_mod x 1, ha, ← Nat.add_mod]
  have cy1 : (y + 1) % h = (y' + 1) % h := by
    rw [Nat.add_mod y 1, hb, ← Nat.add_mod]
  have cxm : (x + w - 1) % w = (x' + w - 1) % w := by
    rcases Nat.eq_zero_or_pos w with hw0 | hw0
    · subst hw0
      simp at ha
      simp [ha]
    · have e1 : x + w - 1 = x + (w - 1) := by omega
      have e2 : x' + w - 1 = x' + (w - 1) := by omega
      rw [e1, e2, Nat.add_mod x, ha, ← Nat.add_mod]
  have cym : (y + h - 1) % h = (y' + h - 1) % h := by
    rcases Nat.eq_zero_or_pos h with hh0 | hh0
    · subst hh0
      simp at hb
      simp [hb]
    · have e1 : y + h - 1 = y + (h - 1) := by omega
      have e2 : y' + h - 1 = y' + (h - 1) := by omega
      rw [e1, e2, Nat.add_mod y, hb, ← Nat.add_mod]
  unfold torNeighborWrapSum
  rw [torIndex_congr cx1 cy1, torIndex_congr cx1 hb, torIndex_congr cx1 cym,
    torIndex_congr ha cym, torIndex_congr cxm cym, torIndex_congr cxm hb,
    torIndex_congr cxm cy1, torIndex_congr ha cy1]

/-- The value an invocation writes only depends on its global id modulo
the grid dimensions: invocations in tiles past the grid edge duplicate
the write of the in-grid invocation of the same cell. -/
lemma nextCell_congr {w h : Nat} (hw : 0 < w) (hh : 0 < h) (hdw : w ∣ U32)
    (hdh : h ∣ U32) (hwh : w * h ≤ U32) (s : List Nat) {x y x' y' : Nat}
    (ha : x % w = x' % w) (hb : y % h = y' % h) :
    nextCell w h s x y = nextCell w h s x' y' := by
  unfold nextCell
  rw [activeNeighbors_norm hw hh hdw hdh hwh s x y,
    activeNeighbors_norm hw hh hdw hdh hwh s x' y',
    torNeighborWrapSum_congr s ha hb,
    cellIndex_congr hw hh hwh ha hb]

/-! ### Reading the stepped grid -/

lemma stepGrid_length (w h : Nat) (s : List Nat) : (stepGrid w h s).length = w * h := by
  simp [stepGrid]

lemma stepGrid_getD {w h i : Nat} (s : List Nat) (hi : i < w * h) :
    (stepGrid w h s).getD i 0 = nextCell w h s (i % w) (i / w) := by
  unfold stepGrid
  rw [List.getD_eq_getElem _ 0 (by simpa using hi)]
  rw [List.getElem_map, List.getElem_range]

lemma row_major_mod {w x : Nat} (y : Nat) (hx : x < w) : (y * w + x) % w = x := by
  rw [Nat.mul_comm y w, Nat.mul_add_mod w y x]
  exact Nat.mod_eq_of_lt hx

lemma row_major_div {w x : Nat} (y : Nat) (hx : x < w) : (y * w + x) / w = y := by
  have hw : 0 < w := by omega
  rw [Nat.mul_comm y w, Nat.mul_add_div hw y x, Nat.div_eq_of_lt hx, Nat.add_zero]

/-! ### Schedules: any complete execution produces `stepGrid` -/

lemma getD_set (l : List Nat) (j a i : Nat) :
    (l.set j a).getD i 0 = if j = i ∧ j < l.length then a else l.getD i 0 := by
  by_cases hji : j = i
  · subst hji
    by_cases hlen : j < l.length
    · simp [List.getD, List.getElem?_set_eq_of_lt a hlen, hlen]
    · have hset : l.set j a = l := List.set_eq_of_length_le (by omega)
      simp [hlen, hset]
  · simp [List.getD, List.getElem?_set_ne hji, hji]

lemma runSchedule_length (w h : Nat) (sIn out : List Nat) (sched : List (Nat × Nat)) :
    (runSchedule w h sIn out sched).length = out.length := by
  induction sched generalizing out with
  | nil => rfl
  | cons p rest ih =>
    show (runSchedule w h sIn (writeCell w h sIn out p) rest).length = _
    rw [ih, writeCell, List.length_set]

/-- What one cell of the output buffer holds after a list of invocations
has executed: the Conway value if some invocation targeted it, the stale
contents otherwise. -/
lemma runSchedule_getD {w h : Nat} (hw : 0 < w) (hh : 0 < h) (hdw : w ∣ U32)
    (hdh : h ∣ U32) (hwh : w * h ≤ U32) (sIn : List Nat)
    (sched : List (Nat × Nat)) (out : List Nat) (hout : out.length = w * h)
    (i : Nat) (hi : i < w * h) :
    (runSchedule w h sIn out sched).getD i 0 =
      if ∃ p ∈ sched, cellIndex w h p.1 p.2 = i then nextCell w h sIn (i % w) (i / w)
      else out.getD i 0 := by
  induction sched generalizing out with
  | nil => simp [runSchedule]
  | cons p rest ih =>
    show (runSchedule w h sIn (writeCell w h sIn out p) rest).getD i 0 = _
    rw [ih (writeCell w h sIn out p) (by rw [writeCell, List.length_set, hout])]
    by_cases hr : ∃ q ∈ rest, cellIndex w h q.1 q.2 = i
    · rw [if_pos hr, if_pos]
      obtain ⟨q, hq, hqi⟩ := hr
      exact ⟨q, List.mem_cons_of_mem p hq, hqi⟩
    · rw [if_neg hr]
      by_cases hp : cellIndex w h p.1 p.2 = i
      · rw [if_pos ⟨p, List.mem_cons_self p rest, hp⟩]
        rw [writeCell, getD_set, if_pos ⟨hp, by rw [hout]; exact hp ▸ hi⟩]
        have htor : cellIndex w h p.1 p.2 = (p.2 % h) * w + p.1 % w :=
          cellIndex_eq_torIndex hw hh hwh p.1 p.2
        have hxm : i % w = p.1 % w := by
          rw [← hp, htor, row_major_mod (p.2 % h) (Nat.mod_lt _ hw)]
        have hym : i / w = p.2 % h := by
          rw [← hp, htor, row_major_div (p.2 % h) (Nat.mod_lt _ hw)]
        refine nextCell_congr hw hh hdw hdh hwh sIn ?_ ?_
        · rw [hxm, Nat.mod_mod_of_dvd _ (dvd_refl w)]
        · rw [hym, Nat.mod_mod_of_dvd _ (dvd_refl h)]
      · rw [if_neg, writeCell, getD_set, if_neg]
        · exact fun hc => hp hc.1
        · rintro ⟨q, hq, hqi⟩
          rcases List.mem_cons.mp hq with rfl | hq'
          · exact hp hqi
          · exact hr ⟨q, hq', hqi⟩

/-- Any complete execution of the compute dispatch — the invocations in
any order, tiles past the grid edge included — turns the output buffer
into `stepGrid` of the input buffer. -/
lemma runSchedule_eq_stepGrid {w h : Nat} (hw : 0 < w) (hh : 0 < h) (hdw : w ∣ U32)
    (hdh : h ∣ U32) (hwh : w * h ≤ U32) (sIn out : List Nat)
    (hout : out.length = w * h) {sched : List (Nat × Nat)}
    (hv : validSchedule w h sched) :
    runSchedule w h sIn out sched = stepGrid w h sIn := by
  apply List.ext_getElem (by rw [runSchedule_length, hout, stepGrid_length])
  intro i h1 h2
  have hi : i < w * h := by rwa [stepGrid_length] at h2
  rw [← List.getD_eq_getElem _ 0 h1, ← List.getD_eq_getElem _ 0 h2]
  rw [runSchedule_getD hw hh hdw hdh hwh sIn sched out hout i hi]
  rw [stepGrid_getD sIn hi]
  rw [if_pos]
  have hxw : i % w < w := Nat.mod_lt _ hw
  have hyh : i / w < h := Nat.div_lt_of_lt_mul hi
  obtain ⟨p, hp, hp1, hp2⟩ := hv (i % w) hxw (i / w) hyh
  refine ⟨p, hp, ?_⟩
  rw [cellIndex_eq_torIndex hw hh hwh, torIndex, hp1, hp2]
  rw [Nat.mul_comm (i / w) w]
  exact Nat.div_add_mod i w

/-! ### Claim theorems -/

/-- C1: for every cell, one compute step writes the output value
determined solely by the 8-neighbor Moore count of the input buffer: if
the count is 2 the output is the cell's input value unchanged, if it is
3 the output is 1, otherwise it is 0. -/
theorem stepGrid_conway_rule {w h : Nat} (s : List Nat) (x y : Nat)
    (hw : 0 < w) (hh : 0 < h) (hdw : w ∣ U32) (hdh : h ∣ U32) (hwh : w * h ≤ U32)
    (hs : ∀ v ∈ s, v ≤ 1) (hx : x < w) (hy : y < h) :
    (stepGrid w h s).getD (y * w + x) 0 =
      if mooreCount w h s x y = 2 then s.getD (y * w + x) 0
      else if mooreCount w h s x y = 3 then 1
      else 0 := by
  have hi : y * w + x < w * h := by
    have htl := torIndex_lt hw hh x y
    unfold torIndex at htl
    rwa [Nat.mod_eq_of_lt hy, Nat.mod_eq_of_lt hx] at htl
  rw [stepGrid_getD s hi, row_major_mod y hx, row_major_div y hx]
  unfold nextCell
  rw [activeNeighbors_eq_mooreCount hw hh hdw hdh hwh hs x y]
  rw [cellIndex_eq_torIndex hw hh hwh]
  unfold torIndex
  rw [Nat.mod_eq_of_lt hy, Nat.mod_eq_of_lt hx]

theorem stepGrid_conway_rule_witness :
    (stepGrid 4 4 [0, 0, 0, 0, 1, 1, 1, 0, 0, 0, 0, 0, 0, 0, 0, 0]).getD (0 * 4 + 1) 0 =
      if mooreCount 4 4 [0, 0, 0, 0, 1, 1, 1, 0, 0, 0, 0, 0, 0, 0, 0, 0] 1 0 = 2 then
        ([0, 0, 0, 0, 1, 1, 1, 0, 0, 0, 0, 0, 0, 0, 0, 0] : List Nat).getD (0 * 4 + 1) 0
      else if mooreCount 4 4 [0, 0, 0, 0, 1, 1, 1, 0, 0, 0, 0, 0, 0, 0, 0, 0] 1 0 = 3 then 1
      else 0 :=
  stepGrid_conway_rule [0, 0, 0, 0, 1, 1, 1, 0, 0, 0, 0, 0, 0, 0, 0, 0] 1 0
    (by decide) (by decide) (by norm_num [U32]) (by norm_num [U32]) (by norm_num [U32])
    (by decide) (by decide) (by decide)

/-- C2: neighbor lookup is toroidal.  With `u32` underflow modelled as
`% 2^32` and the grid sizes dividing `2^32` (true of the program's sizes,
which are powers of two), every neighbor index the shader computes equals
the index with both coordinate components reduced modulo the grid
width/height — for every cell, edge and corner cells included. -/
theorem codeNeighborIndices_toroidal {w h : Nat} (x y : Nat) (hw : 0 < w) (hh : 0 < h)
    (hdw : w ∣ U32) (hdh : h ∣ U32) (hwh : w * h ≤ U32) :
    codeNeighborIndices w h x y = torNeighborIndices w h x y := by
  unfold codeNeighborIndices torNeighborIndices
  rw [nIdx_pp hw hh hdw hdh hwh x y, nIdx_p0 hw hh hdw hwh x y,
    nIdx_pm hw hh hdw hdh hwh x y, nIdx_0m hw hh hdh hwh x y,
    nIdx_mm hw hh hdw hdh hwh x y, nIdx_m0 hw hh hdw hwh x y,
    nIdx_mp hw hh hdw hdh hwh x y, nIdx_0p hw hh hdh hwh x y]

theorem codeNeighborIndices_toroidal_witness :
    codeNeighborIndices 4 4 0 0 = torNeighborIndices 4 4 0 0 ∧
    torIndex 4 4 3 3 ∈ codeNeighborIndices 4 4 0 0 ∧
    torIndex 4 4 3 0 ∈ codeNeighborIndices 4 4 0 0 ∧
    torIndex 4 4 0 3 ∈ codeNeighborIndices 4 4 0 0 :=
  ⟨codeNeighborIndices_toroidal 0 0 (by decide) (by decide) (by norm_num [U32])
      (by norm_num [U32]) (by norm_num [U32]),
    by decide, by decide, by decide⟩

/-- C6: every storage-buffer access of a compute invocation stays inside
the cell array: for every invocation id `(x, y)` — tiles past the grid
edge included — every index `cellIndex` produces is `< width * height`,
so no out-of-bounds read or write occurs (all reads and the one write of
`computeMain` go through `cellIndex`). -/
theorem cellIndex_in_bounds (w h x y : Nat) (hw : 0 < w) (hh : 0 < h) :
    cellIndex w h x y < w * h :=
  cellIndex_lt hw hh x y

theorem cellIndex_in_bounds_witness : cellIndex 4 4 5 7 < 4 * 4 :=
  cellIndex_in_bounds 4 4 5 7 (by decide) (by decide)

/-- C7: the value domain {0,1} is an invariant of the simulation step: if
every cell of the input buffer is 0 or 1, every cell of the stepped
buffer is 0 or 1 (each write is the literal 0, the literal 1, or a copy
of an input cell). -/
theorem stepGrid_values_zero_one {w h : Nat} {s : List Nat} (hs : ∀ v ∈ s, v ≤ 1) :
    ∀ v ∈ stepGrid w h s, v ≤ 1 := by
  intro v hv
  unfold stepGrid at hv
  rw [List.mem_map] at hv
  obtain ⟨i, hi, rfl⟩ := hv
  unfold nextCell
  split
  · exact getD_le_one hs _
  · split
    · exact le_refl 1
    · exact Nat.zero_le 1

theorem stepGrid_values_zero_one_witness :
    (stepGrid 4 4 [0, 1, 1, 0, 1, 0, 1, 0, 0, 1, 0, 1, 1, 1, 0, 0]).getD 5 0 ≤ 1 :=
  @stepGrid_values_zero_one 4 4 [0, 1, 1, 0, 1, 0, 1, 0, 0, 1, 0, 1, 1, 1, 0, 0]
    (by decide) _ (by decide)

/-- C8: on a 4×4 toroidal grid holding a single blinker (three live cells
in a row), one compute step yields the blinker rotated 90° (a vertical
column of three), and a second step returns the exact initial array. -/
theorem blinker_period_two :
    stepGrid 4 4 [0, 0, 0, 0, 1, 1, 1, 0, 0, 0, 0, 0, 0, 0, 0, 0] =
      [0, 1, 0, 0, 0, 1, 0, 0, 0, 1, 0, 0, 0, 0, 0, 0] ∧
    stepGrid 4 4 (stepGrid 4 4 [0, 0, 0, 0, 1, 1, 1, 0, 0, 0, 0, 0, 0, 0, 0, 0]) =
      [0, 0, 0, 0, 1, 1, 1, 0, 0, 0, 0, 0, 0, 0, 0, 0] := by
  constructor
  · decide
  · decide

/-- C3: within one tick the compute pass's read buffer differs from its
write buffer, and the render pass of the same tick (which binds
`bindGroups[(step+1) % 2]` after the increment) reads exactly the buffer
the compute pass (which binds `bindGroups[step % 2]`) just wrote; group 0
reads A and writes B, group 1 reads B and writes A. -/
theorem tick_bindGroups_no_hazard (step : Nat) :
    (bindGroupAt step).input ≠ (bindGroupAt step).output ∧
    (updateGrid step).1 = bindGroupAt step ∧
    (updateGrid step).2.1 = bindGroupAt (step + 1) ∧
    (bindGroupAt (step + 1)).input = (bindGroupAt step).output ∧
    bindGroupAt 0 = ⟨Buf.A, Buf.B⟩ ∧ bindGroupAt 1 = ⟨Buf.B, Buf.A⟩ := by
  rcases Nat.mod_two_eq_zero_or_one step with h | h
  · have h1 : (step + 1) % 2 = 1 := by omega
    simp only [updateGrid, bindGroupAt, h, h1]
    decide
  · have h1 : (step + 1) % 2 = 0 := by omega
    simp only [updateGrid, bindGroupAt, h, h1]
    decide

lemma stepAfter_eq (N : Nat) : stepAfter N = N := by
  induction N with
  | zero => rfl
  | succ n ih => simp [stepAfter, updateGrid, ih]

/-- C4: the step counter starts at zero, is incremented exactly once per
tick and never reset, so after `N` ticks it equals `N`; the buffer the
next tick will read (`bindGroups[N % 2].input`) and the buffer tick `N`
just wrote (`bindGroups[(N-1) % 2].output`) are A when `N` is even and B
when `N` is odd, and tick 1 (parity 0) reads A and writes B. -/
theorem step_counter_parity (N : Nat) :
    stepAfter N = N ∧
    stepAfter (N + 1) = stepAfter N + 1 ∧
    (bindGroupAt N).input = (if N % 2 = 0 then Buf.A else Buf.B) ∧
    (1 ≤ N → (bindGroupAt (N - 1)).output = (if N % 2 = 0 then Buf.A else Buf.B)) ∧
    (updateGrid 0).1 = ⟨Buf.A, Buf.B⟩ := by
  refine ⟨stepAfter_eq N, by simp [stepAfter, updateGrid], ?_, ?_, by decide⟩
  · rcases Nat.mod_two_eq_zero_or_one N with h | h
    · simp only [bindGroupAt, h]
      decide
    · simp only [bindGroupAt, h]
      decide
  · intro hN
    rcases Nat.mod_two_eq_zero_or_one N with h | h
    · have h1 : (N - 1) % 2 = 1 := by omega
      simp only [bindGroupAt, h, h1]
      decide
    · have h1 : (N - 1) % 2 = 0 := by omega
      simp only [bindGroupAt, h, h1]
      decide

theorem step_counter_parity_witness :
    (bindGroupAt (3 - 1)).output = (if 3 % 2 = 0 then Buf.A else Buf.B) :=
  (step_counter_parity 3).2.2.2.1 (by decide)

/-- C10: the output value of an invocation is a function of the input
buffer restricted to its cell and the cell's 8 toroidal Moore neighbors:
two input buffers that agree on the cell's own index and its 8 neighbor
indices produce the same written value.  (That the kernel never reads the
output buffer is structural: `nextCell` and `activeNeighbors` read only
`cellStateIn`, mirroring the shader, where `cellStateOut` is only ever
assigned; order-independence of the tick is `runSchedule_eq_stepGrid`.) -/
theorem nextCell_local_dependence {w h : Nat} (s₁ s₂ : List Nat) (x y : Nat)
    (hagree : ∀ j ∈ cellIndex w h x y :: codeNeighborIndices w h x y,
      s₁.getD j 0 = s₂.getD j 0) :
    nextCell w h s₁ x y = nextCell w h s₂ x y := by
  simp only [codeNeighborIndices, List.forall_mem_cons] at hagree
  obtain ⟨h0, h1, h2, h3, h4, h5, h6, h7, h8, -⟩ := hagree
  unfold nextCell activeNeighbors cellActive
  rw [h0, h1, h2, h3, h4, h5, h6, h7, h8]

theorem nextCell_local_dependence_witness :
    nextCell 4 4 [0, 0, 0, 0, 1, 1, 1, 0, 0, 0, 0, 0, 0, 0, 0, 0] 1 1 =
      nextCell 4 4 [0, 0, 0, 0, 1, 1, 1, 0, 0, 0, 0, 0, 0, 0, 0, 1] 1 1 :=
  nextCell_local_dependence
    [0, 0, 0, 0, 1, 1, 1, 0, 0, 0, 0, 0, 0, 0, 0, 0]
    [0, 0, 0, 0, 1, 1, 1, 0, 0, 0, 0, 0, 0, 0, 0, 1] 1 1 (by decide)

lemma le_mul_ceil_div (w wg : Nat) (hw : 0 < w) (hwg : 0 < wg) :
    w ≤ wg * ((w + wg - 1) / wg) := by
  have h1 : w + wg - 1 = (w - 1) + wg := by omega
  rw [h1, Nat.add_div_right _ hwg]
  have h2 := Nat.div_add_mod (w - 1) wg
  have h3 : (w - 1) % wg < wg := Nat.mod_lt _ hwg
  rw [Nat.mul_add, Nat.mul_one]
  omega

/-- The actual dispatch — `ceil(w/wg) × ceil(h/wg)` workgroups of
`wg × wg` invocations — is a complete schedule: every grid cell is owned
by one of its invocations. -/
lemma dispatchGrid_valid (w h wg : Nat) (hw : 0 < w) (hh : 0 < h) (hwg : 0 < wg) :
    validSchedule w h (dispatchGrid w h wg) := by
  intro x hx y hy
  refine ⟨(x, y), ?_, Nat.mod_eq_of_lt hx, Nat.mod_eq_of_lt hy⟩
  unfold dispatchGrid
  rw [List.mem_flatMap]
  refine ⟨y, List.mem_range.mpr (lt_of_lt_of_le hy (le_mul_ceil_div h wg hh hwg)), ?_⟩
  rw [List.mem_map]
  exact ⟨x, List.mem_range.mpr (lt_of_lt_of_le hx (le_mul_ceil_div w wg hw hwg)), rfl⟩

lemma runTicks_eq_iterate {w h : Nat} (hw : 0 < w) (hh : 0 < h) (hdw : w ∣ U32)
    (hdh : h ∣ U32) (hwh : w * h ≤ U32) (scheds : Nat → List (Nat × Nat))
    (outs : Nat → List Nat) (n : Nat) (s : List Nat)
    (hv : ∀ k < n, validSchedule w h (scheds k) ∧ (outs k).length = w * h) :
    runTicks w h scheds outs n s = (stepGrid w h)^[n] s := by
  induction n with
  | zero => rfl
  | succ m ih =>
    show runSchedule w h (runTicks w h scheds outs m s) (outs m) (scheds m) = _
    rw [ih (fun k hk => hv k (by omega))]
    rw [runSchedule_eq_stepGrid hw hh hdw hdh hwh _ _ (hv m (by omega)).2 (hv m (by omega)).1]
    rw [Function.iterate_succ_apply']

/-- C5: determinism.  Two runs over the same initial buffer and the same
number of ticks produce bit-identical final contents, whatever order the
GPU executes each tick's invocations in and whatever stale data the
output buffers hold: every complete execution equals the pure iterate of
`stepGrid`, which depends on the input buffer alone. -/
theorem runTicks_deterministic {w h : Nat} (hw : 0 < w) (hh : 0 < h) (hdw : w ∣ U32)
    (hdh : h ∣ U32) (hwh : w * h ≤ U32)
    (scheds₁ scheds₂ : Nat → List (Nat × Nat)) (outs₁ outs₂ : Nat → List Nat)
    (n : Nat) (s : List Nat)
    (hv₁ : ∀ k < n, validSchedule w h (scheds₁ k) ∧ (outs₁ k).length = w * h)
    (hv₂ : ∀ k < n, validSchedule w h (scheds₂ k) ∧ (outs₂ k).length = w * h) :
    runTicks w h scheds₁ outs₁ n s = runTicks w h scheds₂ outs₂ n s := by
  rw [runTicks_eq_iterate hw hh hdw hdh hwh scheds₁ outs₁ n s hv₁,
    runTicks_eq_iterate hw hh hdw hdh hwh scheds₂ outs₂ n s hv₂]

theorem runTicks_deterministic_witness :
    runTicks 2 2 (fun _ => [(0, 0), (1, 0), (0, 1), (1, 1)]) (fun _ => [5, 6, 7, 8])
      1 [1, 0, 0, 1] =
    runTicks 2 2 (fun _ => [(1, 1), (3, 0), (0, 1), (2, 2), (0, 0), (1, 0)])
      (fun _ => [0, 0, 0, 0]) 1 [1, 0, 0, 1] :=
  runTicks_deterministic (by decide) (by decide) (by norm_num [U32]) (by norm_num [U32])
    (by norm_num [U32]) _ _ _ _ 1 [1, 0, 0, 1] (by decide) (by decide)

/-- C9: at initialization buffer A's cell `i` is 1 exactly when the
`i`-th random sample exceeds the threshold 0.6 and 0 otherwise, buffer B
is left all-zero, and across initialization and any number of ticks the
host performs exactly one cell-state buffer write (the initial fill of
A); every other command is a compute dispatch or a render pass. -/
theorem init_cellState_spec (r : Nat → ℚ) (n N : Nat) :
    (∀ i, i < n →
      (((initCellState r n).getD i 0 = 1) ↔ (3 : ℚ) / 5 < r i) ∧
      (((initCellState r n).getD i 0 = 0) ↔ ¬ (3 : ℚ) / 5 < r i)) ∧
    cellStateB n = List.replicate n 0 ∧
    (∀ c ∈ hostTrace N, ∀ b, c = HostCmd.writeCellBuffer b → b = Buf.A ∧ c ∈ initCmds) := by
  refine ⟨?_, rfl, ?_⟩
  · intro i hi
    have hg : (initCellState r n).getD i 0 = if (3 : ℚ) / 5 < r i then 1 else 0 := by
      unfold initCellState
      rw [List.getD_eq_getElem _ 0 (by simpa using hi)]
      rw [List.getElem_map, List.getElem_range]
    rw [hg]
    by_cases hc : (3 : ℚ) / 5 < r i
    · simp [hc]
    · simp [hc]
  · intro c hc b hcb
    unfold hostTrace at hc
    rcases List.mem_append.mp hc with hini | htick
    · unfold initCmds at hini
      rw [List.mem_singleton] at hini
      subst hini
      cases hcb
      exact ⟨rfl, List.mem_singleton.mpr rfl⟩
    · exfalso
      obtain ⟨k, -, hck⟩ := List.mem_flatMap.mp htick
      unfold tickCmds at hck
      subst hcb
      rcases List.mem_cons.mp hck with heq | hck'
      · exact HostCmd.noConfusion heq
      · rw [List.mem_singleton] at hck'
        exact HostCmd.noConfusion hck'

theorem init_cellState_spec_witness :
    (initCellState (fun _ => 1) 2).getD 0 0 = 1 :=
  (((init_cellState_spec (fun _ => 1) 2 0).1 0 (by norm_num)).1).mpr (by norm_num)
